import Mathlib

/-!
Verification development for the rpncalc evaluator (src/lib.rs).

The evaluator state is the Rust struct App; its methods are embedded below
as pure functions on an App structure.  IEEE-754 binary64 values are
modelled by the type F: finite doubles are idealized as exact rationals
(every test the source performs on them — comparisons with zero, fract,
the saturating u64 cast — is exact on rationals), while the three
non-finite classes (+inf, -inf, NaN) are explicit constructors.  The
float arithmetic primitives (add, powf, sin, ...) and the Display
formatting of doubles are taken as opaque parameters in an FOps record:
no theorem below depends on their values, so every theorem quantifying
over FOps holds in particular for the real IEEE semantics.  What the
claims do depend on is embedded concretely: the Rust f64 parsing grammar
(which accepts inf/infinity/nan case-insensitively, with optional sign),
the saturating float-to-u64 cast, the wrapping u64 range product, and
the u64-to-f64 conversion (round to nearest, ties to even, 53-bit
mantissa).  Stacks are lists with the top at the END, matching Vec.
-/

namespace Rpn

/-- Model of an IEEE-754 binary64 value: a finite double (idealized as an
exact rational), one of the two infinities, or NaN. -/
inductive F where
  | fin : ℚ → F
  | inf : F
  | neginf : F
  | nan : F
deriving DecidableEq

/-- Embedding of the f64 comparison v == 0.0 (NaN compares unequal to
zero; both IEEE zeros are the single rational 0 here). -/
def F.isZero : F → Bool
  | F.fin q => decide (q = 0)
  | _ => false

/-- Embedding of the f64 comparison v < 0.0 (false on NaN). -/
def F.ltZero : F → Bool
  | F.fin q => decide (q < 0)
  | F.neginf => true
  | _ => false

/-- Truncation of a rational toward zero, as in f64::trunc. -/
def ratTrunc (q : ℚ) : ℤ := if 0 ≤ q then ⌊q⌋ else ⌈q⌉

/-- Embedding of f64::fract, a - a.trunc(); NaN on non-finite input. -/
def F.fract : F → F
  | F.fin q => F.fin (q - (ratTrunc q : ℚ))
  | _ => F.nan

/-- Embedding of the saturating Rust cast a as u64: truncate toward zero,
negative values and NaN give 0, values at or above 2^64 give 2^64 - 1. -/
def F.toU64 : F → ℕ
  | F.fin q => if q < 0 then 0 else min (ratTrunc q).toNat (2 ^ 64 - 1)
  | F.inf => 2 ^ 64 - 1
  | _ => 0

/-- Predicate singling out the finite doubles. -/
def F.isFinite : F → Bool
  | F.fin _ => true
  | _ => false

/-- Number of binary digits of n, computed with explicit fuel so that
kernel evaluation reduces (exact for every n below 2^fuel). -/
def bitLenAux : ℕ → ℕ → ℕ
  | 0, _ => 0
  | fuel + 1, n => if n = 0 then 0 else bitLenAux fuel (n / 2) + 1

/-- Number of binary digits of n (exact below 2^128, far beyond every
value this development rounds). -/
def bitLen (n : ℕ) : ℕ := bitLenAux 128 n

/-- Round a natural number to 53 significant bits, ties to even: the
value of the Rust cast n as f64 for n below 2^64 (always in range, so
never infinite). -/
def rnd53 (n : ℕ) : ℕ :=
  if n < 2 ^ 53 then n
  else
    let k := bitLen n - 53
    let q := n / 2 ^ k
    let r := n % 2 ^ k
    if 2 * r < 2 ^ k then q * 2 ^ k
    else if 2 ^ k < 2 * r then (q + 1) * 2 ^ k
    else if q % 2 = 0 then q * 2 ^ k else (q + 1) * 2 ^ k

/-- Embedding of the Rust cast u64 as f64 (round to nearest, ties even). -/
def u64ToF64 (n : ℕ) : F := F.fin ((rnd53 n : ℕ) : ℚ)

/-- Embedding of (1..=n).product::<u64>() with the wrapping (release
mode) semantics of u64 multiplication: each partial product is reduced
modulo 2^64. -/
def wrapProd : ℕ → ℕ
  | 0 => 1
  | n + 1 => (wrapProd n * (n + 1)) % 2 ^ 64

/-- Decimal digit test, as in the Rust float grammar. -/
def isDig (c : Char) : Bool := c.isDigit

/-- Longest digit prefix of a character list and the remaining suffix
(the span of the digit predicate, written structurally). -/
def spanDig : List Char → List Char × List Char
  | [] => ([], [])
  | c :: t =>
    if isDig c then
      let p := spanDig t
      (c :: p.1, p.2)
    else ([], c :: t)

/-- Numeric value of a decimal digit character. -/
def digVal (c : Char) : ℕ := c.toNat - 48

/-- Value of a list of decimal digit characters. -/
def digitsVal (ds : List Char) : ℕ := ds.foldl (fun a c => 10 * a + digVal c) 0

/-- Power of ten as an exact rational, with integer exponent; written
with natural-number powers so that kernel evaluation reduces. -/
def pow10 (e : ℤ) : ℚ :=
  if 0 ≤ e then ((10 ^ e.toNat : ℕ) : ℚ) else 1 / ((10 ^ (-e).toNat : ℕ) : ℚ)

/-- Mantissa part of the Rust f64 grammar: Digit+ | Digit+ . Digit* |
Digit* . Digit+ — returns its exact rational value and the unconsumed
rest. -/
def parseMantissa (cs : List Char) : Option (ℚ × List Char) :=
  let p := spanDig cs
  match p.2 with
  | '.' :: r2 =>
      let pf := spanDig r2
      if p.1.isEmpty && pf.1.isEmpty then none
      else some ((digitsVal p.1 : ℚ) + (digitsVal pf.1 : ℚ) / ((10 ^ pf.1.length : ℕ) : ℚ), pf.2)
  | _ =>
      if p.1.isEmpty then none else some ((digitsVal p.1 : ℚ), p.2)

/-- Exponent part of the Rust f64 grammar: empty, or (e|E) Sign? Digit+
consuming the whole rest of the token. -/
def parseExp (cs : List Char) : Option ℤ :=
  match cs with
  | [] => some 0
  | e :: r =>
    if e = 'e' || e = 'E' then
      let sr : Bool × List Char :=
        match r with
        | '+' :: t => (false, t)
        | '-' :: t => (true, t)
        | _ => (false, r)
      let pd := spanDig sr.2
      if pd.1.isEmpty || !pd.2.isEmpty then none
      else some (if sr.1 then -(digitsVal pd.1 : ℤ) else (digitsVal pd.1 : ℤ))
    else none

/-- Embedding of str::parse::<f64> (f64::from_str): optional sign, then
case-insensitively inf, infinity or nan, or a decimal mantissa with
optional exponent.  Finite literals take their exact rational value
(idealizing the decimal-to-binary rounding, which no claim depends on). -/
def parseF64Chars (cs : List Char) : Option F :=
  let sc : Bool × List Char :=
    match cs with
    | '+' :: t => (false, t)
    | '-' :: t => (true, t)
    | _ => (false, cs)
  match sc.2.map Char.toLower with
  | ['i', 'n', 'f'] => some (if sc.1 then F.neginf else F.inf)
  | ['i', 'n', 'f', 'i', 'n', 'i', 't', 'y'] => some (if sc.1 then F.neginf else F.inf)
  | ['n', 'a', 'n'] => some F.nan
  | _ =>
    match parseMantissa sc.2 with
    | none => none
    | some (m, rest) =>
      match parseExp rest with
      | none => none
      | some e => some (F.fin ((if sc.1 then -m else m) * pow10 e))

/-- Embedding of self.input.parse::<f64>() on the whole input string. -/
def parseF64 (s : String) : Option F := parseF64Chars s.data

/-- Opaque parameters of the embedding: the IEEE-754 arithmetic
primitives the source applies to stack values, and the Display
formatting of f64.  No theorem depends on their values, so each theorem
quantified over an FOps instance holds for the real float semantics. -/
structure FOps where
  add : F → F → F
  sub : F → F → F
  mul : F → F → F
  fdiv : F → F → F
  powf : F → F → F
  frem : F → F → F
  toRadians : F → F
  toDegrees : F → F
  sin : F → F
  cos : F → F
  tan : F → F
  asin : F → F
  acos : F → F
  atan : F → F
  sqrt : F → F
  ln : F → F
  log10 : F → F
  exp : F → F
  abs : F → F
  cbrt : F → F
  fmt : F → String

/-- Arbitrary concrete FOps instance used to state closed witnesses and
counterexamples; none of the properties proved depend on the choice. -/
def idOps : FOps where
  add := fun _ _ => F.nan
  sub := fun _ _ => F.nan
  mul := fun _ _ => F.nan
  fdiv := fun _ _ => F.nan
  powf := fun _ _ => F.nan
  frem := fun _ _ => F.nan
  toRadians := fun a => a
  toDegrees := fun a => a
  sin := fun a => a
  cos := fun a => a
  tan := fun a => a
  asin := fun a => a
  acos := fun a => a
  atan := fun a => a
  sqrt := fun a => a
  ln := fun a => a
  log10 := fun a => a
  exp := fun a => a
  abs := fun a => a
  cbrt := fun a => a
  fmt := fun _ => "?"

/-- Embedding of the Rust struct App: the evaluator state.  Stack and
history vectors are lists with the most recent element LAST, matching
Vec push/pop. -/
structure App where
  stack : List F
  input : String
  message : String
  history : List (List F)
  calc_history : List String
  show_help : Bool
deriving DecidableEq

/-- Embedding of App::new(). -/
def App.new : App where
  stack := []
  input := ""
  message := "Type numbers or commands (help for list), Enter to execute, q to quit"
  history := []
  calc_history := []
  show_help := false

/-- Embedding of Vec::pop: returns the last element and the remaining
vector, or none when empty. -/
def vpop {α : Type} (l : List α) : Option (α × List α) :=
  match l.getLast? with
  | none => none
  | some v => some (v, l.dropLast)

/-- Embedding of the calc_history push followed by the eviction
self.calc_history.remove(0) when the length exceeds 10. -/
def calcPush (h : List String) (c : String) : List String :=
  let h1 := h ++ [c]
  if 10 < h1.length then h1.tail else h1

/-- Embedding of App::binary_op. -/
def App.binary_op (ops : FOps) (op : F → F → F) (name : String) (s : App) : App :=
  if s.stack.length < 2 then { s with message := "Need 2 numbers for " ++ name }
  else
    match vpop s.stack with
    | none => s
    | some (b, s1) =>
      match vpop s1 with
      | none => s
      | some (a, s2) =>
        let result := op a b
        let entry := ops.fmt a ++ " " ++ name ++ " " ++ ops.fmt b ++ " = " ++ ops.fmt result
        { s with stack := s2 ++ [result], message := entry,
                 calc_history := calcPush s.calc_history entry }

/-- Embedding of App::unary_op. -/
def App.unary_op (ops : FOps) (op : F → F) (name : String) (s : App) : App :=
  match vpop s.stack with
  | some (a, rest) =>
    let result := op a
    let entry := name ++ "(" ++ ops.fmt a ++ ") = " ++ ops.fmt result
    { s with stack := rest ++ [result], message := entry,
             calc_history := calcPush s.calc_history entry }
  | none => { s with message := "Need 1 number for " ++ name }

/-- Embedding of App::divide. -/
def App.divide (ops : FOps) (s : App) : App :=
  if s.stack.length < 2 then { s with message := "Need 2 numbers for division" }
  else
    match vpop s.stack with
    | none => s
    | some (b, s1) =>
      match vpop s1 with
      | none => s
      | some (a, s2) =>
        if b.isZero then
          { s with stack := (s2 ++ [a]) ++ [b], message := "Division by zero" }
        else
          let result := ops.fdiv a b
          let entry := ops.fmt a ++ " / " ++ ops.fmt b ++ " = " ++ ops.fmt result
          { s with stack := s2 ++ [result], message := entry,
                   calc_history := calcPush s.calc_history entry }

/-- Embedding of App::reciprocal. -/
def App.reciprocal (ops : FOps) (s : App) : App :=
  match vpop s.stack with
  | some (a, rest) =>
    if a.isZero then
      { s with stack := rest ++ [a], message := "Cannot take reciprocal of zero" }
    else
      let result := ops.fdiv (F.fin 1) a
      let entry := "1/" ++ ops.fmt a ++ " = " ++ ops.fmt result
      { s with stack := rest ++ [result], message := entry,
               calc_history := calcPush s.calc_history entry }
  | none => { s with message := "Need 1 number for reciprocal" }

/-- Embedding of App::factorial: pop a; if a < 0.0 or a.fract() != 0.0
push a back with an error message, else push the wrapping u64 product of
1..=(a as u64) converted back to f64. -/
def App.factorial (ops : FOps) (s : App) : App :=
  match vpop s.stack with
  | some (a, rest) =>
    if a.ltZero || !(a.fract.isZero) then
      { s with stack := rest ++ [a], message := "Factorial needs non-negative integer" }
    else
      let n := a.toU64
      let result := u64ToF64 (wrapProd n)
      let entry := toString n ++ "! = " ++ ops.fmt result
      { s with stack := rest ++ [result], message := entry,
               calc_history := calcPush s.calc_history entry }
  | none => { s with message := "Need 1 number for factorial" }

/-- Embedding of App::swap: exchange the two topmost values in place. -/
def App.swap (s : App) : App :=
  if s.stack.length < 2 then { s with message := "Need 2 numbers to swap" }
  else
    match vpop s.stack with
    | none => s
    | some (b, s1) =>
      match vpop s1 with
      | none => s
      | some (a, s2) =>
        { s with stack := s2 ++ [b, a], message := "Swapped top 2 values" }

/-- Embedding of App::root: pop the index y, pop the base x; when y is
zero restore both, else push x^(1/y). -/
def App.root (ops : FOps) (s : App) : App :=
  if s.stack.length < 2 then
    { s with message := "Need 2 numbers for root (y root x = x^(1/y))" }
  else
    match vpop s.stack with
    | none => s
    | some (y, s1) =>
      match vpop s1 with
      | none => s
      | some (x, s2) =>
        if y.isZero then
          { s with stack := (s2 ++ [x]) ++ [y], message := "Cannot take 0th root" }
        else
          let result := ops.powf x (ops.fdiv (F.fin 1) y)
          let entry := ops.fmt y ++ " root " ++ ops.fmt x ++ " = " ++ ops.fmt result
          { s with stack := s2 ++ [result], message := entry,
                   calc_history := calcPush s.calc_history entry }

/-- Embedding of App::clear, the hard reset entry point. -/
def App.clear (s : App) : App :=
  { s with stack := [], message := "Stack cleared" }

/-- Embedding of App::execute_command (the spec name is submit_line):
early return on empty input; numeric tokens snapshot and push; undo and
help are handled before the snapshot; every other token snapshots and is
dispatched through the operation table; input is cleared at the end. -/
def App.execute_command (ops : FOps) (s : App) : App :=
  if s.input = "" then s
  else
    let s9 :=
      match parseF64 s.input with
      | some num =>
        { s with history := s.history ++ [s.stack],
                 stack := s.stack ++ [num],
                 message := "Pushed " ++ ops.fmt num }
      | none =>
        match s.input with
        | "undo" =>
          match vpop s.history with
          | some (prev, h) =>
            { s with stack := prev, history := h, message := "Undid last operation" }
          | none => { s with message := "Nothing to undo" }
        | "help" =>
          { s with show_help := true, message := "Help shown (press any key to close)" }
        | _ =>
          let t := { s with history := s.history ++ [s.stack] }
          match s.input with
          | "+" => t.binary_op ops ops.add "+"
          | "-" => t.binary_op ops ops.sub "-"
          | "*" => t.binary_op ops ops.mul "*"
          | "/" => t.divide ops
          | "^" | "pow" => t.binary_op ops ops.powf "^"
          | "%" | "mod" => t.binary_op ops ops.frem "%"
          | "sin" => t.unary_op ops (fun a => ops.sin (ops.toRadians a)) "sin"
          | "cos" => t.unary_op ops (fun a => ops.cos (ops.toRadians a)) "cos"
          | "tan" => t.unary_op ops (fun a => ops.tan (ops.toRadians a)) "tan"
          | "asin" => t.unary_op ops (fun a => ops.toDegrees (ops.asin a)) "asin"
          | "acos" => t.unary_op ops (fun a => ops.toDegrees (ops.acos a)) "acos"
          | "atan" => t.unary_op ops (fun a => ops.toDegrees (ops.atan a)) "atan"
          | "sqrt" => t.unary_op ops ops.sqrt "sqrt"
          | "ln" => t.unary_op ops ops.ln "ln"
          | "log" => t.unary_op ops ops.log10 "log"
          | "exp" => t.unary_op ops ops.exp "exp"
          | "10x" => t.unary_op ops (fun a => ops.powf (F.fin 10) a) "10x"
          | "abs" => t.unary_op ops ops.abs "abs"
          | "cbrt" => t.unary_op ops ops.cbrt "cbrt"
          | "root" => t.root ops
          | "inv" => t.reciprocal ops
          | "!" | "fact" => t.factorial ops
          | "swap" => t.swap
          | "clear" | "clr" => { t with stack := [], message := "Stack cleared" }
          | "drop" =>
            match vpop t.stack with
            | some (v, rest) => { t with stack := rest, message := "Dropped " ++ ops.fmt v }
            | none => { t with message := "Stack is empty" }
          | _ => { t with message := "Unknown command (type \x27help\x27 for list)" }
    { s9 with input := "" }

/-- Embedding of App::execute_single_char: flush a non-empty pending
input through execute_command, snapshot unconditionally, then apply the
operator selected by the character (no-op on any other character). -/
def App.execute_single_char (ops : FOps) (c : Char) (s : App) : App :=
  let s1 := if s.input = "" then s else s.execute_command ops
  let s2 := { s1 with history := s1.history ++ [s1.stack] }
  match c with
  | '+' => s2.binary_op ops ops.add "+"
  | '-' => s2.binary_op ops ops.sub "-"
  | '*' => s2.binary_op ops ops.mul "*"
  | '/' => s2.divide ops
  | '^' => s2.binary_op ops ops.powf "^"
  | '%' => s2.binary_op ops ops.frem "%"
  | '!' => s2.factorial ops
  | _ => s2


/-! Basic lemmas about the vector primitives. -/

theorem vpop_nil {α : Type} : vpop ([] : List α) = none := rfl

theorem vpop_concat {α : Type} (l : List α) (x : α) : vpop (l ++ [x]) = some (x, l) := by
  unfold vpop
  rw [List.getLast?_concat, List.dropLast_concat]

theorem vpop_concat2 {α : Type} (l : List α) (a b : α) :
    vpop (l ++ [a, b]) = some (b, l ++ [a]) := by
  have h : l ++ [a, b] = (l ++ [a]) ++ [b] := by simp
  rw [h, vpop_concat]

theorem exists_concat_of_ne_nil {α : Type} (l : List α) (h : l ≠ []) :
    ∃ l1 x, l = l1 ++ [x] := by
  rcases List.eq_nil_or_concat l with rfl | ⟨l1, x, hx⟩
  · exact absurd rfl h
  · exact ⟨l1, x, by simpa [List.concat_eq_append] using hx⟩

theorem exists_concat2_of_two_le {α : Type} (l : List α) (h : 2 ≤ l.length) :
    ∃ l2 a b, l = l2 ++ [a, b] := by
  rcases exists_concat_of_ne_nil l (by rintro rfl; simp at h) with ⟨l1, b, rfl⟩
  rcases exists_concat_of_ne_nil l1 (by rintro rfl; simp at h) with ⟨l2, a, rfl⟩
  exact ⟨l2, a, b, by simp⟩

theorem calcPush_le (h : List String) (c : String) (hl : h.length ≤ 10) :
    (calcPush h c).length ≤ 10 := by
  simp only [calcPush]
  split
  · simp [List.length_tail, hl]
  · simp only [List.length_append, List.length_cons, List.length_nil] at *
    omega

theorem calcPush_full (h : List String) (c : String) (hl : h.length = 10) :
    calcPush h c = h.tail ++ [c] := by
  simp only [calcPush]
  rw [if_pos (by simp [hl])]
  rcases exists_concat_of_ne_nil h (by rintro rfl; simp at hl) with ⟨l, x, rfl⟩
  cases l
  · simp at hl
  · simp

/-! Frame and shape lemmas for the operation methods. -/

theorem binary_op_short (ops : FOps) (op : F → F → F) (nm : String) (t : App)
    (h : t.stack.length < 2) :
    t.binary_op ops op nm = { t with message := "Need 2 numbers for " ++ nm } := by
  unfold App.binary_op
  rw [if_pos h]

theorem binary_op_success (ops : FOps) (op : F → F → F) (nm : String) (t : App)
    (l : List F) (a b : F) (hs : t.stack = l ++ [a, b]) :
    t.binary_op ops op nm =
      { t with stack := l ++ [op a b],
               message := ops.fmt a ++ " " ++ nm ++ " " ++ ops.fmt b ++ " = " ++ ops.fmt (op a b),
               calc_history := calcPush t.calc_history
                 (ops.fmt a ++ " " ++ nm ++ " " ++ ops.fmt b ++ " = " ++ ops.fmt (op a b)) } := by
  unfold App.binary_op
  rw [hs, if_neg (by simp)]
  simp only [vpop_concat2, vpop_concat]

theorem unary_op_empty (ops : FOps) (op : F → F) (nm : String) (t : App)
    (h : t.stack = []) :
    t.unary_op ops op nm = { t with message := "Need 1 number for " ++ nm } := by
  unfold App.unary_op
  rw [h]
  rfl

theorem unary_op_success (ops : FOps) (op : F → F) (nm : String) (t : App)
    (l : List F) (a : F) (hs : t.stack = l ++ [a]) :
    t.unary_op ops op nm =
      { t with stack := l ++ [op a],
               message := nm ++ "(" ++ ops.fmt a ++ ") = " ++ ops.fmt (op a),
               calc_history := calcPush t.calc_history
                 (nm ++ "(" ++ ops.fmt a ++ ") = " ++ ops.fmt (op a)) } := by
  unfold App.unary_op
  rw [hs]
  simp only [vpop_concat]

theorem divide_short (ops : FOps) (t : App) (h : t.stack.length < 2) :
    t.divide ops = { t with message := "Need 2 numbers for division" } := by
  unfold App.divide
  rw [if_pos h]

theorem divide_bzero (ops : FOps) (t : App) (l : List F) (a b : F)
    (hs : t.stack = l ++ [a, b]) (hb : b.isZero = true) :
    t.divide ops = { t with stack := l ++ [a, b], message := "Division by zero" } := by
  unfold App.divide
  rw [hs, if_neg (by simp)]
  simp only [vpop_concat2, vpop_concat]
  rw [if_pos hb]
  simp

theorem divide_success (ops : FOps) (t : App) (l : List F) (a b : F)
    (hs : t.stack = l ++ [a, b]) (hb : b.isZero = false) :
    t.divide ops =
      { t with stack := l ++ [ops.fdiv a b],
               message := ops.fmt a ++ " / " ++ ops.fmt b ++ " = " ++ ops.fmt (ops.fdiv a b),
               calc_history := calcPush t.calc_history
                 (ops.fmt a ++ " / " ++ ops.fmt b ++ " = " ++ ops.fmt (ops.fdiv a b)) } := by
  unfold App.divide
  rw [hs, if_neg (by simp)]
  simp only [vpop_concat2, vpop_concat]
  rw [if_neg (by simp [hb])]

theorem reciprocal_empty (ops : FOps) (t : App) (h : t.stack = []) :
    t.reciprocal ops = { t with message := "Need 1 number for reciprocal" } := by
  unfold App.reciprocal
  rw [h]
  rfl

theorem reciprocal_zero (ops : FOps) (t : App) (l : List F) (a : F)
    (hs : t.stack = l ++ [a]) (ha : a.isZero = true) :
    t.reciprocal ops =
      { t with stack := l ++ [a], message := "Cannot take reciprocal of zero" } := by
  unfold App.reciprocal
  rw [hs]
  simp only [vpop_concat]
  rw [if_pos ha]

theorem reciprocal_success (ops : FOps) (t : App) (l : List F) (a : F)
    (hs : t.stack = l ++ [a]) (ha : a.isZero = false) :
    t.reciprocal ops =
      { t with stack := l ++ [ops.fdiv (F.fin 1) a],
               message := "1/" ++ ops.fmt a ++ " = " ++ ops.fmt (ops.fdiv (F.fin 1) a),
               calc_history := calcPush t.calc_history
                 ("1/" ++ ops.fmt a ++ " = " ++ ops.fmt (ops.fdiv (F.fin 1) a)) } := by
  unfold App.reciprocal
  rw [hs]
  simp only [vpop_concat]
  rw [if_neg (by simp [ha])]

theorem factorial_empty (ops : FOps) (t : App) (h : t.stack = []) :
    t.factorial ops = { t with message := "Need 1 number for factorial" } := by
  unfold App.factorial
  rw [h]
  rfl

theorem factorial_badarg (ops : FOps) (t : App) (l : List F) (a : F)
    (hs : t.stack = l ++ [a]) (ha : (a.ltZero || !(a.fract.isZero)) = true) :
    t.factorial ops =
      { t with stack := l ++ [a], message := "Factorial needs non-negative integer" } := by
  unfold App.factorial
  rw [hs]
  simp only [vpop_concat]
  rw [if_pos ha]

theorem factorial_success (ops : FOps) (t : App) (l : List F) (a : F)
    (hs : t.stack = l ++ [a]) (ha : (a.ltZero || !(a.fract.isZero)) = false) :
    t.factorial ops =
      { t with stack := l ++ [u64ToF64 (wrapProd a.toU64)],
               message := toString a.toU64 ++ "! = " ++ ops.fmt (u64ToF64 (wrapProd a.toU64)),
               calc_history := calcPush t.calc_history
                 (toString a.toU64 ++ "! = " ++ ops.fmt (u64ToF64 (wrapProd a.toU64))) } := by
  unfold App.factorial
  rw [hs]
  simp only [vpop_concat]
  rw [if_neg (by simp [ha])]

theorem swap_short (t : App) (h : t.stack.length < 2) :
    t.swap = { t with message := "Need 2 numbers to swap" } := by
  unfold App.swap
  rw [if_pos h]

theorem swap_success (t : App) (l : List F) (a b : F) (hs : t.stack = l ++ [a, b]) :
    t.swap = { t with stack := l ++ [b, a], message := "Swapped top 2 values" } := by
  unfold App.swap
  rw [hs, if_neg (by simp)]
  simp only [vpop_concat2, vpop_concat]

theorem root_short (ops : FOps) (t : App) (h : t.stack.length < 2) :
    t.root ops = { t with message := "Need 2 numbers for root (y root x = x^(1/y))" } := by
  unfold App.root
  rw [if_pos h]

theorem root_yzero (ops : FOps) (t : App) (l : List F) (x y : F)
    (hs : t.stack = l ++ [x, y]) (hy : y.isZero = true) :
    t.root ops = { t with stack := l ++ [x, y], message := "Cannot take 0th root" } := by
  unfold App.root
  rw [hs, if_neg (by simp)]
  simp only [vpop_concat2, vpop_concat]
  rw [if_pos hy]
  simp

theorem root_success (ops : FOps) (t : App) (l : List F) (x y : F)
    (hs : t.stack = l ++ [x, y]) (hy : y.isZero = false) :
    t.root ops =
      { t with stack := l ++ [ops.powf x (ops.fdiv (F.fin 1) y)],
               message := ops.fmt y ++ " root " ++ ops.fmt x ++ " = "
                 ++ ops.fmt (ops.powf x (ops.fdiv (F.fin 1) y)),
               calc_history := calcPush t.calc_history
                 (ops.fmt y ++ " root " ++ ops.fmt x ++ " = "
                   ++ ops.fmt (ops.powf x (ops.fdiv (F.fin 1) y))) } := by
  unfold App.root
  rw [hs, if_neg (by simp)]
  simp only [vpop_concat2, vpop_concat]
  rw [if_neg (by simp [hy])]


/-! History- and calc-history-preservation lemmas for the methods: none
of the operation methods touches the undo log, and each one either
leaves calc_history unchanged or pushes through calcPush. -/

theorem binary_op_history (ops : FOps) (op : F → F → F) (nm : String) (t : App) :
    (t.binary_op ops op nm).history = t.history := by
  unfold App.binary_op
  repeat first | rfl | split

theorem unary_op_history (ops : FOps) (op : F → F) (nm : String) (t : App) :
    (t.unary_op ops op nm).history = t.history := by
  unfold App.unary_op
  repeat first | rfl | split

theorem divide_history (ops : FOps) (t : App) : (t.divide ops).history = t.history := by
  unfold App.divide
  repeat first | rfl | split

theorem reciprocal_history (ops : FOps) (t : App) :
    (t.reciprocal ops).history = t.history := by
  unfold App.reciprocal
  repeat first | rfl | split

theorem factorial_history (ops : FOps) (t : App) :
    (t.factorial ops).history = t.history := by
  unfold App.factorial
  repeat first | rfl | split

theorem swap_history (t : App) : t.swap.history = t.history := by
  unfold App.swap
  repeat first | rfl | split

theorem root_history (ops : FOps) (t : App) : (t.root ops).history = t.history := by
  unfold App.root
  repeat first | rfl | split

theorem binary_op_input (ops : FOps) (op : F → F → F) (nm : String) (t : App) :
    (t.binary_op ops op nm).input = t.input := by
  unfold App.binary_op
  repeat first | rfl | split

theorem binary_op_calc_le (ops : FOps) (op : F → F → F) (nm : String) (t : App)
    (h : t.calc_history.length ≤ 10) :
    (t.binary_op ops op nm).calc_history.length ≤ 10 := by
  unfold App.binary_op
  repeat first | exact h | exact calcPush_le _ _ h | split

theorem unary_op_calc_le (ops : FOps) (op : F → F) (nm : String) (t : App)
    (h : t.calc_history.length ≤ 10) :
    (t.unary_op ops op nm).calc_history.length ≤ 10 := by
  unfold App.unary_op
  repeat first | exact h | exact calcPush_le _ _ h | split

theorem divide_calc_le (ops : FOps) (t : App) (h : t.calc_history.length ≤ 10) :
    (t.divide ops).calc_history.length ≤ 10 := by
  unfold App.divide
  repeat first | exact h | exact calcPush_le _ _ h | split

theorem reciprocal_calc_le (ops : FOps) (t : App) (h : t.calc_history.length ≤ 10) :
    (t.reciprocal ops).calc_history.length ≤ 10 := by
  unfold App.reciprocal
  repeat first | exact h | exact calcPush_le _ _ h | split

theorem factorial_calc_le (ops : FOps) (t : App) (h : t.calc_history.length ≤ 10) :
    (t.factorial ops).calc_history.length ≤ 10 := by
  unfold App.factorial
  repeat first | exact h | exact calcPush_le _ _ h | split

theorem swap_calc (t : App) : t.swap.calc_history = t.calc_history := by
  unfold App.swap
  repeat first | rfl | split

theorem root_calc_le (ops : FOps) (t : App) (h : t.calc_history.length ≤ 10) :
    (t.root ops).calc_history.length ≤ 10 := by
  unfold App.root
  repeat first | exact h | exact calcPush_le _ _ h | split

/-! Shape lemmas for execute_command on the non-table branches. -/

theorem parse_empty : parseF64 "" = none := rfl

theorem exec_push (ops : FOps) (s : App) (v : F) (hv : parseF64 s.input = some v) :
    s.execute_command ops =
      { s with stack := s.stack ++ [v],
               history := s.history ++ [s.stack],
               message := "Pushed " ++ ops.fmt v,
               input := "" } := by
  have hne : s.input ≠ "" := by
    intro he
    rw [he, parse_empty] at hv
    exact Option.noConfusion hv
  unfold App.execute_command
  rw [if_neg hne]
  simp only [hv]

theorem exec_undo_pop (ops : FOps) (s : App) (l : List (List F)) (prev : List F)
    (hin : s.input = "undo") (hh : s.history = l ++ [prev]) :
    s.execute_command ops =
      { s with stack := prev, history := l,
               message := "Undid last operation", input := "" } := by
  unfold App.execute_command
  rw [hin, hh]
  simp only [show parseF64 "undo" = none from by decide, vpop_concat]
  rfl

theorem exec_undo_empty (ops : FOps) (s : App)
    (hin : s.input = "undo") (hh : s.history = []) :
    s.execute_command ops = { s with message := "Nothing to undo", input := "" } := by
  unfold App.execute_command
  rw [hin, hh]
  rfl


/-! Dispatch lemmas: execute_command on each concrete operation token
reduces to the corresponding method applied to the snapshotted state. -/

theorem exec_tok_add (ops : FOps) (s : App) (h : s.input = "+") :
    s.execute_command ops =
      { (App.binary_op ops ops.add "+" { s with history := s.history ++ [s.stack] }) with input := "" } := by
  unfold App.execute_command
  rw [h]
  rfl

theorem exec_tok_sub (ops : FOps) (s : App) (h : s.input = "-") :
    s.execute_command ops =
      { (App.binary_op ops ops.sub "-" { s with history := s.history ++ [s.stack] }) with input := "" } := by
  unfold App.execute_command
  rw [h]
  rfl

theorem exec_tok_mul (ops : FOps) (s : App) (h : s.input = "*") :
    s.execute_command ops =
      { (App.binary_op ops ops.mul "*" { s with history := s.history ++ [s.stack] }) with input := "" } := by
  unfold App.execute_command
  rw [h]
  rfl

theorem exec_tok_div (ops : FOps) (s : App) (h : s.input = "/") :
    s.execute_command ops =
      { (App.divide ops { s with history := s.history ++ [s.stack] }) with input := "" } := by
  unfold App.execute_command
  rw [h]
  rfl

theorem exec_tok_pow_caret (ops : FOps) (s : App) (h : s.input = "^") :
    s.execute_command ops =
      { (App.binary_op ops ops.powf "^" { s with history := s.history ++ [s.stack] }) with input := "" } := by
  unfold App.execute_command
  rw [h]
  rfl

theorem exec_tok_pow_word (ops : FOps) (s : App) (h : s.input = "pow") :
    s.execute_command ops =
      { (App.binary_op ops ops.powf "^" { s with history := s.history ++ [s.stack] }) with input := "" } := by
  unfold App.execute_command
  rw [h]
  rfl

theorem exec_tok_mod_sym (ops : FOps) (s : App) (h : s.input = "%") :
    s.execute_command ops =
      { (App.binary_op ops ops.frem "%" { s with history := s.history ++ [s.stack] }) with input := "" } := by
  unfold App.execute_command
  rw [h]
  rfl

theorem exec_tok_mod_word (ops : FOps) (s : App) (h : s.input = "mod") :
    s.execute_command ops =
      { (App.binary_op ops ops.frem "%" { s with history := s.history ++ [s.stack] }) with input := "" } := by
  unfold App.execute_command
  rw [h]
  rfl

theorem exec_tok_sin (ops : FOps) (s : App) (h : s.input = "sin") :
    s.execute_command ops =
      { (App.unary_op ops (fun a => ops.sin (ops.toRadians a)) "sin" { s with history := s.history ++ [s.stack] }) with input := "" } := by
  unfold App.execute_command
  rw [h]
  rfl

theorem exec_tok_cos (ops : FOps) (s : App) (h : s.input = "cos") :
    s.execute_command ops =
      { (App.unary_op ops (fun a => ops.cos (ops.toRadians a)) "cos" { s with history := s.history ++ [s.stack] }) with input := "" } := by
  unfold App.execute_command
  rw [h]
  rfl

theorem exec_tok_tan (ops : FOps) (s : App) (h : s.input = "tan") :
    s.execute_command ops =
      { (App.unary_op ops (fun a => ops.tan (ops.toRadians a)) "tan" { s with history := s.history ++ [s.stack] }) with input := "" } := by
  unfold App.execute_command
  rw [h]
  rfl

theorem exec_tok_asin (ops : FOps) (s : App) (h : s.input = "asin") :
    s.execute_command ops =
      { (App.unary_op ops (fun a => ops.toDegrees (ops.asin a)) "asin" { s with history := s.history ++ [s.stack] }) with input := "" } := by
  unfold App.execute_command
  rw [h]
  rfl

theorem exec_tok_acos (ops : FOps) (s : App) (h : s.input = "acos") :
    s.execute_command ops =
      { (App.unary_op ops (fun a => ops.toDegrees (ops.acos a)) "acos" { s with history := s.history ++ [s.stack] }) with input := "" } := by
  unfold App.execute_command
  rw [h]
  rfl

theorem exec_tok_atan (ops : FOps) (s : App) (h : s.input = "atan") :
    s.execute_command ops =
      { (App.unary_op ops (fun a => ops.toDegrees (ops.atan a)) "atan" { s with history := s.history ++ [s.stack] }) with input := "" } := by
  unfold App.execute_command
  rw [h]
  rfl

theorem exec_tok_sqrt (ops : FOps) (s : App) (h : s.input = "sqrt") :
    s.execute_command ops =
      { (App.unary_op ops ops.sqrt "sqrt" { s with history := s.history ++ [s.stack] }) with input := "" } := by
  unfold App.execute_command
  rw [h]
  rfl

theorem exec_tok_ln (ops : FOps) (s : App) (h : s.input = "ln") :
    s.execute_command ops =
      { (App.unary_op ops ops.ln "ln" { s with history := s.history ++ [s.stack] }) with input := "" } := by
  unfold App.execute_command
  rw [h]
  rfl

theorem exec_tok_log (ops : FOps) (s : App) (h : s.input = "log") :
    s.execute_command ops =
      { (App.unary_op ops ops.log10 "log" { s with history := s.history ++ [s.stack] }) with input := "" } := by
  unfold App.execute_command
  rw [h]
  rfl

theorem exec_tok_exp (ops : FOps) (s : App) (h : s.input = "exp") :
    s.execute_command ops =
      { (App.unary_op ops ops.exp "exp" { s with history := s.history ++ [s.stack] }) with input := "" } := by
  unfold App.execute_command
  rw [h]
  rfl

theorem exec_tok_tenx (ops : FOps) (s : App) (h : s.input = "10x") :
    s.execute_command ops =
      { (App.unary_op ops (fun a => ops.powf (F.fin 10) a) "10x" { s with history := s.history ++ [s.stack] }) with input := "" } := by
  unfold App.execute_command
  rw [h]
  rfl

theorem exec_tok_abs (ops : FOps) (s : App) (h : s.input = "abs") :
    s.execute_command ops =
      { (App.unary_op ops ops.abs "abs" { s with history := s.history ++ [s.stack] }) with input := "" } := by
  unfold App.execute_command
  rw [h]
  rfl

theorem exec_tok_cbrt (ops : FOps) (s : App) (h : s.input = "cbrt") :
    s.execute_command ops =
      { (App.unary_op ops ops.cbrt "cbrt" { s with history := s.history ++ [s.stack] }) with input := "" } := by
  unfold App.execute_command
  rw [h]
  rfl

theorem exec_tok_root (ops : FOps) (s : App) (h : s.input = "root") :
    s.execute_command ops =
      { (App.root ops { s with history := s.history ++ [s.stack] }) with input := "" } := by
  unfold App.execute_command
  rw [h]
  rfl

theorem exec_tok_inv (ops : FOps) (s : App) (h : s.input = "inv") :
    s.execute_command ops =
      { (App.reciprocal ops { s with history := s.history ++ [s.stack] }) with input := "" } := by
  unfold App.execute_command
  rw [h]
  rfl

theorem exec_tok_bang (ops : FOps) (s : App) (h : s.input = "!") :
    s.execute_command ops =
      { (App.factorial ops { s with history := s.history ++ [s.stack] }) with input := "" } := by
  unfold App.execute_command
  rw [h]
  rfl

theorem exec_tok_fact (ops : FOps) (s : App) (h : s.input = "fact") :
    s.execute_command ops =
      { (App.factorial ops { s with history := s.history ++ [s.stack] }) with input := "" } := by
  unfold App.execute_command
  rw [h]
  rfl

theorem exec_tok_swap (ops : FOps) (s : App) (h : s.input = "swap") :
    s.execute_command ops =
      { (App.swap { s with history := s.history ++ [s.stack] }) with input := "" } := by
  unfold App.execute_command
  rw [h]
  rfl

theorem exec_tok_clear (ops : FOps) (s : App) (h : s.input = "clear" ∨ s.input = "clr") :
    s.execute_command ops =
      { s with stack := [], history := s.history ++ [s.stack],
               message := "Stack cleared", input := "" } := by
  unfold App.execute_command
  rcases h with h | h
  all_goals rw [h]; rfl

theorem exec_tok_drop_some (ops : FOps) (s : App) (l : List F) (v : F)
    (h : s.input = "drop") (hs : s.stack = l ++ [v]) :
    s.execute_command ops =
      { s with stack := l, history := s.history ++ [s.stack],
               message := "Dropped " ++ ops.fmt v, input := "" } := by
  unfold App.execute_command
  rw [h, hs]
  simp only [vpop_concat]
  rfl

theorem exec_tok_drop_none (ops : FOps) (s : App)
    (h : s.input = "drop") (hs : s.stack = []) :
    s.execute_command ops =
      { s with history := s.history ++ [s.stack],
               message := "Stack is empty", input := "" } := by
  unfold App.execute_command
  rw [h, hs]
  rfl

theorem exec_tok_help (ops : FOps) (s : App) (h : s.input = "help") :
    s.execute_command ops =
      { s with show_help := true,
               message := "Help shown (press any key to close)", input := "" } := by
  unfold App.execute_command
  rw [h]
  rfl

/-- List of all tokens recognized by the operation table of
execute_command (the dispatch arms below undo and help). -/
def tableTokens : List String :=
  ["+", "-", "*", "/", "^", "pow", "%", "mod", "sin", "cos", "tan", "asin",
   "acos", "atan", "sqrt", "ln", "log", "exp", "10x", "abs", "cbrt", "root",
   "inv", "!", "fact", "swap", "clear", "clr", "drop"]

theorem exec_unknown (ops : FOps) (s : App)
    (h0 : parseF64 s.input = none) (h1 : s.input ≠ "")
    (h2 : s.input ∉ ("undo" :: "help" :: tableTokens)) :
    s.execute_command ops =
      { s with history := s.history ++ [s.stack],
               message := "Unknown command (type \x27help\x27 for list)",
               input := "" } := by
  simp only [tableTokens, List.mem_cons, List.mem_singleton] at h2
  push_neg at h2
  unfold App.execute_command
  rw [if_neg h1]
  simp only [h0]
  split <;> simp_all


/-! Claim theorems. -/

/-- C8: the hard-reset entry point App::clear empties the Stack and sets
StatusMessage to "Stack cleared", while leaving CalcHistory, the UndoLog
and PendingInput unchanged; in particular no undo snapshot is recorded,
so this reset cannot be undone. -/
theorem claim_c8_clear_frame (s : App) :
    s.clear.stack = [] ∧ s.clear.message = "Stack cleared" ∧
    s.clear.calc_history = s.calc_history ∧ s.clear.history = s.history ∧
    s.clear.input = s.input ∧ s.clear.show_help = s.show_help :=
  ⟨rfl, rfl, rfl, rfl, rfl, rfl⟩

/-- Evaluation of the parser on the concrete token 5 (the rational
arithmetic in the parser does not reduce definitionally, so the raw
parse result is normalized by norm_num). -/
theorem parse_five : parseF64 "5" = some (F.fin 5) := by
  have h : parseF64 "5" = some (F.fin ((5 : ℚ) * pow10 0)) := rfl
  rw [h]
  norm_num [pow10]

/-- C3: for every stack s and every value v, submitting a token that
parses to v (which snapshots the stack and pushes v) and then submitting
the token undo restores the stack exactly, with message
"Undid last operation". -/
theorem claim_c3_push_undo_roundtrip (ops : FOps) (s : App) (v : F)
    (hv : parseF64 s.input = some v) :
    ({ s.execute_command ops with input := "undo" }.execute_command ops).stack = s.stack ∧
    ({ s.execute_command ops with input := "undo" }.execute_command ops).message
      = "Undid last operation" := by
  rw [exec_push ops s v hv, exec_undo_pop ops _ s.history s.stack rfl rfl]
  exact ⟨rfl, rfl⟩

/-- Witness for C3 at the concrete token 5 on the stack [2]. -/
theorem claim_c3_push_undo_roundtrip_witness :
    ({ ({ App.new with stack := [F.fin 2], input := "5" } : App).execute_command idOps with
        input := "undo" }.execute_command idOps).stack = [F.fin 2] ∧
    ({ ({ App.new with stack := [F.fin 2], input := "5" } : App).execute_command idOps with
        input := "undo" }.execute_command idOps).message = "Undid last operation" :=
  claim_c3_push_undo_roundtrip idOps { App.new with stack := [F.fin 2], input := "5" }
    (F.fin 5) parse_five

/-- C10: the clear command token goes through the operation-table
dispatch and therefore records an undo snapshot: clearing through the
token and then submitting undo restores the stack exactly. -/
theorem claim_c10_clear_undo_roundtrip (ops : FOps) (s : App) (h : s.input = "clear") :
    ({ s.execute_command ops with input := "undo" }.execute_command ops).stack = s.stack ∧
    ({ s.execute_command ops with input := "undo" }.execute_command ops).message
      = "Undid last operation" := by
  rw [exec_tok_clear ops s (Or.inl h), exec_undo_pop ops _ s.history s.stack rfl rfl]
  exact ⟨rfl, rfl⟩

/-- Witness for C10 on the stack [1, 2]. -/
theorem claim_c10_clear_undo_roundtrip_witness :
    ({ ({ App.new with stack := [F.fin 1, F.fin 2], input := "clear" } : App).execute_command idOps with
        input := "undo" }.execute_command idOps).stack = [F.fin 1, F.fin 2] ∧
    ({ ({ App.new with stack := [F.fin 1, F.fin 2], input := "clear" } : App).execute_command idOps with
        input := "undo" }.execute_command idOps).message = "Undid last operation" :=
  claim_c10_clear_undo_roundtrip idOps
    { App.new with stack := [F.fin 1, F.fin 2], input := "clear" } rfl

/-- C5: with at least two values on the stack, top y (the index, popped
first) nonzero and second value x (the base) below it, the root command
replaces both with powf x (1/y) and records the index-then-base ordered
message "y root x = r"; the dispatch snapshot of the pre-action stack is
recorded. -/
theorem claim_c5_root_order (ops : FOps) (s : App) (l : List F) (x y : F)
    (hin : s.input = "root") (hs : s.stack = l ++ [x, y]) (hy : y.isZero = false) :
    (s.execute_command ops).stack = l ++ [ops.powf x (ops.fdiv (F.fin 1) y)] ∧
    (s.execute_command ops).message =
      ops.fmt y ++ " root " ++ ops.fmt x ++ " = "
        ++ ops.fmt (ops.powf x (ops.fdiv (F.fin 1) y)) ∧
    (s.execute_command ops).history = s.history ++ [s.stack] ∧
    (s.execute_command ops).calc_history = calcPush s.calc_history
      (ops.fmt y ++ " root " ++ ops.fmt x ++ " = "
        ++ ops.fmt (ops.powf x (ops.fdiv (F.fin 1) y))) := by
  rw [exec_tok_root ops s hin]
  rw [root_success ops { s with history := s.history ++ [s.stack] } l x y hs hy]
  exact ⟨rfl, rfl, rfl, rfl⟩

/-- Witness for C5 on the stack [8, 3]. -/
theorem claim_c5_root_order_witness :
    (({ App.new with stack := [F.fin 8, F.fin 3], input := "root" } : App).execute_command
        idOps).stack = [idOps.powf (F.fin 8) (idOps.fdiv (F.fin 1) (F.fin 3))] ∧
    (({ App.new with stack := [F.fin 8, F.fin 3], input := "root" } : App).execute_command
        idOps).message =
      idOps.fmt (F.fin 3) ++ " root " ++ idOps.fmt (F.fin 8) ++ " = "
        ++ idOps.fmt (idOps.powf (F.fin 8) (idOps.fdiv (F.fin 1) (F.fin 3))) ∧
    (({ App.new with stack := [F.fin 8, F.fin 3], input := "root" } : App).execute_command
        idOps).history = [] ++ [[F.fin 8, F.fin 3]] ∧
    (({ App.new with stack := [F.fin 8, F.fin 3], input := "root" } : App).execute_command
        idOps).calc_history = calcPush []
      (idOps.fmt (F.fin 3) ++ " root " ++ idOps.fmt (F.fin 8) ++ " = "
        ++ idOps.fmt (idOps.powf (F.fin 8) (idOps.fdiv (F.fin 1) (F.fin 3)))) :=
  claim_c5_root_order idOps { App.new with stack := [F.fin 8, F.fin 3], input := "root" }
    [] (F.fin 8) (F.fin 3) rfl rfl (by decide)


/-- Counterexample to C1 as stated: the token inf parses under the Rust
f64 grammar although it is not a finite decimal number and is not a
command token, and execute_command pushes positive infinity instead of
reporting an unknown command. -/
theorem claim_c1_counterexample :
    (({ App.new with input := "inf" } : App).execute_command idOps).stack = [F.inf] ∧
    F.inf.isFinite = false ∧
    "inf" ∉ ("undo" :: "help" :: tableTokens) ∧
    (({ App.new with input := "inf" } : App).execute_command idOps).message
      ≠ "Unknown command (type \x27help\x27 for list)" := by
  refine ⟨rfl, rfl, by decide, by decide⟩

/-- C1 (amended): a submitted non-empty token is pushed if and only if
it parses under the Rust f64 grammar (which also accepts the non-finite
forms inf, infinity and nan); every token that does not parse and is not
undo, help or one of the operation-table tokens leaves the stack
untouched, keeps the snapshot already taken, leaves CalcHistory alone
and sets the unknown-command message. -/
theorem claim_c1_dispatch (ops : FOps) (s : App) :
    (∀ v, parseF64 s.input = some v →
        (s.execute_command ops).stack = s.stack ++ [v] ∧
        (s.execute_command ops).history = s.history ++ [s.stack] ∧
        (s.execute_command ops).message = "Pushed " ++ ops.fmt v) ∧
    (parseF64 s.input = none → s.input ≠ "" →
        s.input ∉ ("undo" :: "help" :: tableTokens) →
        (s.execute_command ops).stack = s.stack ∧
        (s.execute_command ops).history = s.history ++ [s.stack] ∧
        (s.execute_command ops).calc_history = s.calc_history ∧
        (s.execute_command ops).message = "Unknown command (type \x27help\x27 for list)") := by
  constructor
  · intro v hv
    rw [exec_push ops s v hv]
    exact ⟨rfl, rfl, rfl⟩
  · intro h0 h1 h2
    rw [exec_unknown ops s h0 h1 h2]
    exact ⟨rfl, rfl, rfl, rfl⟩

/-- Witness for C1 (amended) at the numeric token 5 and the unknown
token zzz. -/
theorem claim_c1_dispatch_witness :
    (({ App.new with input := "5" } : App).execute_command idOps).stack = [] ++ [F.fin 5] ∧
    (({ App.new with input := "zzz" } : App).execute_command idOps).message
      = "Unknown command (type \x27help\x27 for list)" :=
  ⟨((claim_c1_dispatch idOps { App.new with input := "5" }).1 (F.fin 5) parse_five).1,
   ((claim_c1_dispatch idOps { App.new with input := "zzz" }).2 rfl (by decide)
      (by decide)).2.2.2⟩

/-- Counterexample to C9 as stated: from the empty evaluator, submitting
the token inf leaves a non-finite value (positive infinity) on the
stack. -/
theorem claim_c9_counterexample :
    (({ App.new with input := "inf" } : App).execute_command idOps).stack.all F.isFinite
      = false := by
  decide

/-- C9 (amended): stack values are not always finite; the core applies
no finiteness filter, so any value the input parses to — including the
non-finite doubles accepted by the f64 grammar — is pushed as-is. -/
theorem claim_c9_nonfinite_pushed (ops : FOps) (s : App) (v : F)
    (hv : parseF64 s.input = some v) (hnf : v.isFinite = false) :
    ∃ x ∈ (s.execute_command ops).stack, x.isFinite = false := by
  rw [exec_push ops s v hv]
  exact ⟨v, by simp, hnf⟩

/-- Witness for C9 (amended) at the token inf from the empty evaluator. -/
theorem claim_c9_nonfinite_pushed_witness :
    ∃ x ∈ (({ App.new with input := "inf" } : App).execute_command idOps).stack,
      x.isFinite = false :=
  claim_c9_nonfinite_pushed idOps { App.new with input := "inf" } F.inf rfl rfl


/-! Helper lemmas for the factorial path on natural-number stack values. -/

theorem ratTrunc_natCast (n : ℕ) : ratTrunc ((n : ℕ) : ℚ) = n := by
  unfold ratTrunc
  rw [if_pos (by positivity)]
  exact_mod_cast Int.floor_natCast n

theorem fract_natCast (n : ℕ) : (F.fin ((n : ℕ) : ℚ)).fract = F.fin 0 := by
  show F.fin (((n : ℕ) : ℚ) - (ratTrunc ((n : ℕ) : ℚ) : ℚ)) = F.fin 0
  rw [ratTrunc_natCast]
  norm_num

theorem ltZero_natCast (n : ℕ) : (F.fin ((n : ℕ) : ℚ)).ltZero = false := by
  simp only [F.ltZero, decide_eq_false_iff_not, not_lt]
  positivity

theorem fact_guard_natCast (n : ℕ) :
    ((F.fin ((n : ℕ) : ℚ)).ltZero || !((F.fin ((n : ℕ) : ℚ)).fract.isZero)) = false := by
  rw [fract_natCast, ltZero_natCast]
  simp [F.isZero]

theorem toU64_natCast (n : ℕ) (h : n < 2 ^ 64) : (F.fin ((n : ℕ) : ℚ)).toU64 = n := by
  show (if ((n : ℕ) : ℚ) < 0 then 0 else min (ratTrunc ((n : ℕ) : ℚ)).toNat (2 ^ 64 - 1)) = n
  rw [if_neg (not_lt.2 (by positivity)), ratTrunc_natCast]
  simp only [Int.toNat_natCast]
  omega

theorem wrapProd_eq_factorial_mod (n : ℕ) :
    wrapProd n = Nat.factorial n % 2 ^ 64 := by
  induction n with
  | zero => rfl
  | succ k ih =>
    show (wrapProd k * (k + 1)) % 2 ^ 64 = Nat.factorial (k + 1) % 2 ^ 64
    rw [ih, Nat.mod_mul_mod, Nat.factorial_succ, Nat.mul_comm]

theorem wrapProd_of_le20 (n : ℕ) (h : n ≤ 20) : wrapProd n = Nat.factorial n := by
  rw [wrapProd_eq_factorial_mod]
  exact Nat.mod_eq_of_lt
    (lt_of_le_of_lt (Nat.factorial_le h) (by decide))

/-- Evaluation of the factorial command on a stack whose top is the
natural number n (below 2^64): the pushed value is the wrapping u64
product converted back to a double. -/
theorem exec_bang_natCast (ops : FOps) (s : App) (l : List F) (n : ℕ)
    (hn : n < 2 ^ 64) (h : s.input = "!")
    (hs : s.stack = l ++ [F.fin ((n : ℕ) : ℚ)]) :
    (s.execute_command ops).stack = l ++ [u64ToF64 (wrapProd n)] := by
  rw [exec_tok_bang ops s h,
    factorial_success ops { s with history := s.history ++ [s.stack] } l
      (F.fin ((n : ℕ) : ℚ)) hs (fact_guard_natCast n),
    toU64_natCast n hn]

/-- Counterexample to C4 as stated: with 21 on the stack (a nonnegative
integral double), the factorial command pushes the wrapped u64 product
21! mod 2^64 converted to a double, which differs from the mathematical
factorial of 21 converted to a double. -/
theorem claim_c4_counterexample :
    (({ App.new with stack := [F.fin ((21 : ℕ) : ℚ)], input := "!" } : App).execute_command
        idOps).stack ≠ [u64ToF64 (Nat.factorial 21)] := by
  rw [exec_bang_natCast idOps
    ({ App.new with stack := [F.fin ((21 : ℕ) : ℚ)], input := "!" } : App) [] 21
    (by norm_num) rfl rfl]
  simp only [List.nil_append, u64ToF64, ne_eq, List.cons.injEq, and_true, F.fin.injEq,
    Nat.cast_inj]
  decide

/-- C4 (amended): for every stack whose top is the integral double n
with 0 ≤ n ≤ 20, the factorial command replaces the top with the
mathematical factorial of n converted to a double and records
"n! = r"; beyond 20 the wrapping u64 accumulator overflows (see the
counterexample at 21). -/
theorem claim_c4_factorial (ops : FOps) (s : App) (l : List F) (n : ℕ)
    (hn : n ≤ 20) (hin : s.input = "!" ∨ s.input = "fact")
    (hs : s.stack = l ++ [F.fin ((n : ℕ) : ℚ)]) :
    (s.execute_command ops).stack = l ++ [u64ToF64 (Nat.factorial n)] ∧
    (s.execute_command ops).message
      = toString n ++ "! = " ++ ops.fmt (u64ToF64 (Nat.factorial n)) := by
  have ht : (F.fin ((n : ℕ) : ℚ)).toU64 = n :=
    toU64_natCast n (lt_of_le_of_lt hn (by norm_num))
  rcases hin with h | h
  · rw [exec_tok_bang ops s h,
      factorial_success ops { s with history := s.history ++ [s.stack] } l
        (F.fin ((n : ℕ) : ℚ)) hs (fact_guard_natCast n),
      ht, wrapProd_of_le20 n hn]
    exact ⟨rfl, rfl⟩
  · rw [exec_tok_fact ops s h,
      factorial_success ops { s with history := s.history ++ [s.stack] } l
        (F.fin ((n : ℕ) : ℚ)) hs (fact_guard_natCast n),
      ht, wrapProd_of_le20 n hn]
    exact ⟨rfl, rfl⟩

/-- Witness for C4 (amended): 5 factorial pushes 120 as a double. -/
theorem claim_c4_factorial_witness :
    ((({ App.new with stack := [F.fin ((5 : ℕ) : ℚ)], input := "!" } : App).execute_command
        idOps).stack = [] ++ [u64ToF64 (Nat.factorial 5)] ∧
      (({ App.new with stack := [F.fin ((5 : ℕ) : ℚ)], input := "!" } : App).execute_command
        idOps).message = toString (5 : ℕ) ++ "! = " ++ idOps.fmt (u64ToF64 (Nat.factorial 5))) ∧
    u64ToF64 (Nat.factorial 5) = F.fin ((120 : ℕ) : ℚ) :=
  ⟨claim_c4_factorial idOps { App.new with stack := [F.fin ((5 : ℕ) : ℚ)], input := "!" }
      [] 5 (by decide) (Or.inl rfl) rfl,
   rfl⟩


/-- Top of the stack (the value Vec::pop returns first); arbitrary
default on an empty stack, used only under a depth guard. -/
def stTop (st : List F) : F := st.getLast?.getD (F.fin 0)

theorem stTop_concat (l : List F) (x : F) : stTop (l ++ [x]) = x := by
  unfold stTop
  rw [List.getLast?_concat]
  rfl

/-- Specification-side predicate collecting the precondition failures
enumerated by the claim: insufficient depth for any table operation,
division by zero, reciprocal of zero, zeroth root, negative or
non-integral factorial argument, swap or drop on a too-small stack. -/
def opPrecondFails (tok : String) (st : List F) : Bool :=
  if tok = "/" then decide (st.length < 2) || (stTop st).isZero
  else if tok = "root" then decide (st.length < 2) || (stTop st).isZero
  else if tok ∈ (["+", "-", "*", "^", "pow", "%", "mod", "swap"] : List String) then
    decide (st.length < 2)
  else if tok = "inv" then st.isEmpty || (stTop st).isZero
  else if tok = "!" ∨ tok = "fact" then
    st.isEmpty || (stTop st).ltZero || !((stTop st).fract.isZero)
  else if tok ∈ (["sin", "cos", "tan", "asin", "acos", "atan", "sqrt", "ln", "log",
      "exp", "10x", "abs", "cbrt", "drop"] : List String) then st.isEmpty
  else false

/-- C2: whenever the submitted token is a table operation whose
precondition fails, the stack after the attempt is identical to the
stack before it, CalcHistory is untouched, and the dispatch has still
recorded an UndoLog snapshot of the pre-action stack. -/
theorem claim_c2_fail_atomic (ops : FOps) (s : App) (tok : String)
    (hin : s.input = tok) (hf : opPrecondFails tok s.stack = true) :
    (s.execute_command ops).stack = s.stack ∧
    (s.execute_command ops).calc_history = s.calc_history ∧
    (s.execute_command ops).history = s.history ++ [s.stack] := by
  subst hin
  unfold opPrecondFails at hf
  split_ifs at hf with h1 h2 h3 h4 h5 h6
  · -- division
    simp only [Bool.or_eq_true, decide_eq_true_eq] at hf
    rcases hf with hlen | hz
    · rw [exec_tok_div ops s h1,
        divide_short ops { s with history := s.history ++ [s.stack] } hlen]
      exact ⟨rfl, rfl, rfl⟩
    · by_cases hlen : s.stack.length < 2
      · rw [exec_tok_div ops s h1,
          divide_short ops { s with history := s.history ++ [s.stack] } hlen]
        exact ⟨rfl, rfl, rfl⟩
      · rcases exists_concat2_of_two_le s.stack (by omega) with ⟨l, a, b, hs⟩
        rw [hs, show l ++ [a, b] = (l ++ [a]) ++ [b] by simp, stTop_concat] at hz
        rw [exec_tok_div ops s h1,
          divide_bzero ops { s with history := s.history ++ [s.stack] } l a b hs hz]
        exact ⟨hs.symm, rfl, rfl⟩
  · -- root
    simp only [Bool.or_eq_true, decide_eq_true_eq] at hf
    rcases hf with hlen | hz
    · rw [exec_tok_root ops s h2,
        root_short ops { s with history := s.history ++ [s.stack] } hlen]
      exact ⟨rfl, rfl, rfl⟩
    · by_cases hlen : s.stack.length < 2
      · rw [exec_tok_root ops s h2,
          root_short ops { s with history := s.history ++ [s.stack] } hlen]
        exact ⟨rfl, rfl, rfl⟩
      · rcases exists_concat2_of_two_le s.stack (by omega) with ⟨l, x, y, hs⟩
        rw [hs, show l ++ [x, y] = (l ++ [x]) ++ [y] by simp, stTop_concat] at hz
        rw [exec_tok_root ops s h2,
          root_yzero ops { s with history := s.history ++ [s.stack] } l x y hs hz]
        exact ⟨hs.symm, rfl, rfl⟩
  · -- arity-2 operations
    simp only [decide_eq_true_eq] at hf
    simp only [List.mem_cons, List.mem_singleton, List.not_mem_nil, or_false] at h3
    rcases h3 with h | h | h | h | h | h | h | h
    · rw [exec_tok_add ops s h,
        binary_op_short ops ops.add "+" { s with history := s.history ++ [s.stack] } hf]
      exact ⟨rfl, rfl, rfl⟩
    · rw [exec_tok_sub ops s h,
        binary_op_short ops ops.sub "-" { s with history := s.history ++ [s.stack] } hf]
      exact ⟨rfl, rfl, rfl⟩
    · rw [exec_tok_mul ops s h,
        binary_op_short ops ops.mul "*" { s with history := s.history ++ [s.stack] } hf]
      exact ⟨rfl, rfl, rfl⟩
    · rw [exec_tok_pow_caret ops s h,
        binary_op_short ops ops.powf "^" { s with history := s.history ++ [s.stack] } hf]
      exact ⟨rfl, rfl, rfl⟩
    · rw [exec_tok_pow_word ops s h,
        binary_op_short ops ops.powf "^" { s with history := s.history ++ [s.stack] } hf]
      exact ⟨rfl, rfl, rfl⟩
    · rw [exec_tok_mod_sym ops s h,
        binary_op_short ops ops.frem "%" { s with history := s.history ++ [s.stack] } hf]
      exact ⟨rfl, rfl, rfl⟩
    · rw [exec_tok_mod_word ops s h,
        binary_op_short ops ops.frem "%" { s with history := s.history ++ [s.stack] } hf]
      exact ⟨rfl, rfl, rfl⟩
    · rw [exec_tok_swap ops s h,
        swap_short { s with history := s.history ++ [s.stack] } hf]
      exact ⟨rfl, rfl, rfl⟩
  · -- reciprocal
    simp only [Bool.or_eq_true, List.isEmpty_iff] at hf
    rcases hf with hemp | hz
    · rw [exec_tok_inv ops s h4,
        reciprocal_empty ops { s with history := s.history ++ [s.stack] } hemp]
      exact ⟨rfl, rfl, rfl⟩
    · rcases List.eq_nil_or_concat s.stack with hemp | ⟨l, a, hs⟩
      · rw [exec_tok_inv ops s h4,
          reciprocal_empty ops { s with history := s.history ++ [s.stack] } hemp]
        exact ⟨rfl, rfl, rfl⟩
      · rw [List.concat_eq_append] at hs
        rw [hs, stTop_concat] at hz
        rw [exec_tok_inv ops s h4,
          reciprocal_zero ops { s with history := s.history ++ [s.stack] } l a hs hz]
        exact ⟨hs.symm, rfl, rfl⟩
  · -- factorial
    rcases List.eq_nil_or_concat s.stack with hemp | ⟨l, a, hs⟩
    · rcases h5 with h | h
      · rw [exec_tok_bang ops s h,
          factorial_empty ops { s with history := s.history ++ [s.stack] } hemp]
        exact ⟨rfl, rfl, rfl⟩
      · rw [exec_tok_fact ops s h,
          factorial_empty ops { s with history := s.history ++ [s.stack] } hemp]
        exact ⟨rfl, rfl, rfl⟩
    · rw [List.concat_eq_append] at hs
      have hguard : ((a.ltZero || !(a.fract.isZero))) = true := by
        rw [hs, stTop_concat] at hf
        simpa [List.isEmpty_iff, hs] using hf
      rcases h5 with h | h
      · rw [exec_tok_bang ops s h,
          factorial_badarg ops { s with history := s.history ++ [s.stack] } l a hs hguard]
        exact ⟨hs.symm, rfl, rfl⟩
      · rw [exec_tok_fact ops s h,
          factorial_badarg ops { s with history := s.history ++ [s.stack] } l a hs hguard]
        exact ⟨hs.symm, rfl, rfl⟩
  · -- arity-1 operations and drop on the empty stack
    rw [List.isEmpty_iff] at hf
    simp only [List.mem_cons, List.mem_singleton, List.not_mem_nil, or_false] at h6
    rcases h6 with h | h | h | h | h | h | h | h | h | h | h | h | h | h
    · rw [exec_tok_sin ops s h, unary_op_empty ops _ "sin"
        { s with history := s.history ++ [s.stack] } hf]
      exact ⟨rfl, rfl, rfl⟩
    · rw [exec_tok_cos ops s h, unary_op_empty ops _ "cos"
        { s with history := s.history ++ [s.stack] } hf]
      exact ⟨rfl, rfl, rfl⟩
    · rw [exec_tok_tan ops s h, unary_op_empty ops _ "tan"
        { s with history := s.history ++ [s.stack] } hf]
      exact ⟨rfl, rfl, rfl⟩
    · rw [exec_tok_asin ops s h, unary_op_empty ops _ "asin"
        { s with history := s.history ++ [s.stack] } hf]
      exact ⟨rfl, rfl, rfl⟩
    · rw [exec_tok_acos ops s h, unary_op_empty ops _ "acos"
        { s with history := s.history ++ [s.stack] } hf]
      exact ⟨rfl, rfl, rfl⟩
    · rw [exec_tok_atan ops s h, unary_op_empty ops _ "atan"
        { s with history := s.history ++ [s.stack] } hf]
      exact ⟨rfl, rfl, rfl⟩
    · rw [exec_tok_sqrt ops s h, unary_op_empty ops _ "sqrt"
        { s with history := s.history ++ [s.stack] } hf]
      exact ⟨rfl, rfl, rfl⟩
    · rw [exec_tok_ln ops s h, unary_op_empty ops _ "ln"
        { s with history := s.history ++ [s.stack] } hf]
      exact ⟨rfl, rfl, rfl⟩
    · rw [exec_tok_log ops s h, unary_op_empty ops _ "log"
        { s with history := s.history ++ [s.stack] } hf]
      exact ⟨rfl, rfl, rfl⟩
    · rw [exec_tok_exp ops s h, unary_op_empty ops _ "exp"
        { s with history := s.history ++ [s.stack] } hf]
      exact ⟨rfl, rfl, rfl⟩
    · rw [exec_tok_tenx ops s h, unary_op_empty ops _ "10x"
        { s with history := s.history ++ [s.stack] } hf]
      exact ⟨rfl, rfl, rfl⟩
    · rw [exec_tok_abs ops s h, unary_op_empty ops _ "abs"
        { s with history := s.history ++ [s.stack] } hf]
      exact ⟨rfl, rfl, rfl⟩
    · rw [exec_tok_cbrt ops s h, unary_op_empty ops _ "cbrt"
        { s with history := s.history ++ [s.stack] } hf]
      exact ⟨rfl, rfl, rfl⟩
    · rw [exec_tok_drop_none ops s h hf]
      exact ⟨hf.symm ▸ rfl, rfl, rfl⟩

/-- Witness for C2: the plus command on the empty evaluator stack. -/
theorem claim_c2_fail_atomic_witness :
    (({ App.new with input := "+" } : App).execute_command idOps).stack = [] ∧
    (({ App.new with input := "+" } : App).execute_command idOps).calc_history = [] ∧
    (({ App.new with input := "+" } : App).execute_command idOps).history = [] ++ [[]] :=
  claim_c2_fail_atomic idOps { App.new with input := "+" } "+" rfl (by decide)


/-- CalcHistory stays within the 10-entry bound across execute_command. -/
theorem execute_command_calc_le (ops : FOps) (s : App)
    (h : s.calc_history.length ≤ 10) :
    (s.execute_command ops).calc_history.length ≤ 10 := by
  unfold App.execute_command
  split
  · exact h
  · split
    · exact h
    · split
      · split
        · exact h
        · exact h
      · exact h
      · split <;>
          first
            | exact h
            | exact binary_op_calc_le _ _ _ _ h
            | exact unary_op_calc_le _ _ _ _ h
            | exact divide_calc_le _ _ h
            | exact reciprocal_calc_le _ _ h
            | exact factorial_calc_le _ _ h
            | exact root_calc_le _ _ h
            | (rw [swap_calc]; exact h)
            | (dsimp only; split <;> exact h)

/-- CalcHistory stays within the 10-entry bound across
execute_single_char. -/
theorem execute_single_char_calc_le (ops : FOps) (c : Char) (s : App)
    (h : s.calc_history.length ≤ 10) :
    (s.execute_single_char ops c).calc_history.length ≤ 10 := by
  unfold App.execute_single_char
  split
  · dsimp only
    split <;>
      first
        | exact h
        | exact binary_op_calc_le _ _ _ _ h
        | exact divide_calc_le _ _ h
        | exact factorial_calc_le _ _ h
  · have h2 : (s.execute_command ops).calc_history.length ≤ 10 :=
      execute_command_calc_le ops s h
    dsimp only
    split <;>
      first
        | exact h2
        | exact binary_op_calc_le _ _ _ _ h2
        | exact divide_calc_le _ _ h2
        | exact factorial_calc_le _ _ h2

/-- C6: starting below the bound, CalcHistory holds at most 10 entries
after each public operation (execute_command, execute_single_char,
clear); and when any successful arithmetic operation (a binary table
operation, a unary table operation, divide, reciprocal, factorial or
root) appends its record to a full history, the oldest entry is evicted
and the relative order of the remaining entries is preserved. -/
theorem claim_c6_calc_history_bound (ops : FOps) (c : Char) (s : App)
    (h : s.calc_history.length ≤ 10) :
    (s.execute_command ops).calc_history.length ≤ 10 ∧
    (s.execute_single_char ops c).calc_history.length ≤ 10 ∧
    s.clear.calc_history.length ≤ 10 ∧
    (s.calc_history.length = 10 →
      ∀ (l : List F) (a b : F) (f : F → F → F) (nm : String), s.stack = l ++ [a, b] →
        (s.binary_op ops f nm).calc_history =
          s.calc_history.tail ++
            [ops.fmt a ++ " " ++ nm ++ " " ++ ops.fmt b ++ " = " ++ ops.fmt (f a b)]) ∧
    (s.calc_history.length = 10 →
      ∀ (l : List F) (a : F) (f : F → F) (nm : String), s.stack = l ++ [a] →
        (s.unary_op ops f nm).calc_history =
          s.calc_history.tail ++
            [nm ++ "(" ++ ops.fmt a ++ ") = " ++ ops.fmt (f a)]) ∧
    (s.calc_history.length = 10 →
      ∀ (l : List F) (a b : F), s.stack = l ++ [a, b] → b.isZero = false →
        (s.divide ops).calc_history =
          s.calc_history.tail ++
            [ops.fmt a ++ " / " ++ ops.fmt b ++ " = " ++ ops.fmt (ops.fdiv a b)]) ∧
    (s.calc_history.length = 10 →
      ∀ (l : List F) (a : F), s.stack = l ++ [a] → a.isZero = false →
        (s.reciprocal ops).calc_history =
          s.calc_history.tail ++
            ["1/" ++ ops.fmt a ++ " = " ++ ops.fmt (ops.fdiv (F.fin 1) a)]) ∧
    (s.calc_history.length = 10 →
      ∀ (l : List F) (a : F), s.stack = l ++ [a] →
        (a.ltZero || !(a.fract.isZero)) = false →
        (s.factorial ops).calc_history =
          s.calc_history.tail ++
            [toString a.toU64 ++ "! = " ++ ops.fmt (u64ToF64 (wrapProd a.toU64))]) ∧
    (s.calc_history.length = 10 →
      ∀ (l : List F) (x y : F), s.stack = l ++ [x, y] → y.isZero = false →
        (s.root ops).calc_history =
          s.calc_history.tail ++
            [ops.fmt y ++ " root " ++ ops.fmt x ++ " = "
              ++ ops.fmt (ops.powf x (ops.fdiv (F.fin 1) y))]) := by
  refine ⟨execute_command_calc_le ops s h, execute_single_char_calc_le ops c s h, h,
    ?_, ?_, ?_, ?_, ?_, ?_⟩
  · intro h10 l a b f nm hs
    rw [binary_op_success ops f nm s l a b hs]
    exact calcPush_full _ _ h10
  · intro h10 l a f nm hs
    rw [unary_op_success ops f nm s l a hs]
    exact calcPush_full _ _ h10
  · intro h10 l a b hs hb
    rw [divide_success ops s l a b hs hb]
    exact calcPush_full _ _ h10
  · intro h10 l a hs ha
    rw [reciprocal_success ops s l a hs ha]
    exact calcPush_full _ _ h10
  · intro h10 l a hs ha
    rw [factorial_success ops s l a hs ha]
    exact calcPush_full _ _ h10
  · intro h10 l x y hs hy
    rw [root_success ops s l x y hs hy]
    exact calcPush_full _ _ h10

/-- Witness for C6 on a full 10-entry history with two stack values,
exercising the bound, a binary eviction and a unary eviction. -/
theorem claim_c6_calc_history_bound_witness :
    (({ App.new with
        stack := [F.fin 1, F.fin 2],
        calc_history := ["0", "1", "2", "3", "4", "5", "6", "7", "8", "9"] } : App
      ).execute_command idOps).calc_history.length ≤ 10 ∧
    (({ App.new with
        stack := [F.fin 1, F.fin 2],
        calc_history := ["0", "1", "2", "3", "4", "5", "6", "7", "8", "9"] } : App
      ).binary_op idOps idOps.add "+").calc_history =
      (["0", "1", "2", "3", "4", "5", "6", "7", "8", "9"] : List String).tail ++
        [idOps.fmt (F.fin 1) ++ " " ++ "+" ++ " " ++ idOps.fmt (F.fin 2) ++ " = "
          ++ idOps.fmt (idOps.add (F.fin 1) (F.fin 2))] ∧
    (({ App.new with
        stack := [F.fin 1, F.fin 2],
        calc_history := ["0", "1", "2", "3", "4", "5", "6", "7", "8", "9"] } : App
      ).unary_op idOps idOps.sqrt "sqrt").calc_history =
      (["0", "1", "2", "3", "4", "5", "6", "7", "8", "9"] : List String).tail ++
        ["sqrt" ++ "(" ++ idOps.fmt (F.fin 2) ++ ") = "
          ++ idOps.fmt (idOps.sqrt (F.fin 2))] := by
  have H := claim_c6_calc_history_bound idOps 'z'
    { App.new with
      stack := [F.fin 1, F.fin 2],
      calc_history := ["0", "1", "2", "3", "4", "5", "6", "7", "8", "9"] } (by decide)
  exact ⟨H.1, H.2.2.2.1 rfl [] (F.fin 1) (F.fin 2) idOps.add "+" rfl,
    H.2.2.2.2.1 rfl [F.fin 1] (F.fin 2) idOps.sqrt "sqrt" rfl⟩


/-- The history shape of execute_single_char: whatever the character,
exactly one snapshot of the post-flush stack is appended to the undo log
left by the flush. -/
theorem execute_single_char_history (ops : FOps) (c : Char) (s : App) :
    (s.execute_single_char ops c).history =
      (if s.input = "" then s else s.execute_command ops).history ++
        [(if s.input = "" then s else s.execute_command ops).stack] := by
  unfold App.execute_single_char
  dsimp only
  split <;>
    first
      | rfl
      | exact binary_op_history _ _ _ _
      | exact divide_history _ _
      | exact factorial_history _ _

/-- C7: execute_single_char first runs the full execute_command dispatch
when PendingInput is non-empty, then unconditionally records one more
snapshot of the post-flush stack; the operator is applied only for the
seven operator characters, any other character leaves the flushed state
unchanged apart from that extra snapshot; flushing a pending number this
way therefore consumes two undo slots. -/
theorem claim_c7_single_char (ops : FOps) (c : Char) (s : App) :
    (s.execute_single_char ops c).history =
      (if s.input = "" then s else s.execute_command ops).history ++
        [(if s.input = "" then s else s.execute_command ops).stack] ∧
    (c ∉ (['+', '-', '*', '/', '^', '%', '!'] : List Char) →
      s.execute_single_char ops c =
        { (if s.input = "" then s else s.execute_command ops) with
          history := (if s.input = "" then s else s.execute_command ops).history ++
            [(if s.input = "" then s else s.execute_command ops).stack] }) ∧
    (∀ v, parseF64 s.input = some v →
      (s.execute_single_char ops c).history =
        (s.history ++ [s.stack]) ++ [s.stack ++ [v]]) ∧
    ((c = '+' → s.execute_single_char ops c =
        App.binary_op ops ops.add "+"
          { (if s.input = "" then s else s.execute_command ops) with
            history := (if s.input = "" then s else s.execute_command ops).history ++
              [(if s.input = "" then s else s.execute_command ops).stack] }) ∧
      (c = '-' → s.execute_single_char ops c =
        App.binary_op ops ops.sub "-"
          { (if s.input = "" then s else s.execute_command ops) with
            history := (if s.input = "" then s else s.execute_command ops).history ++
              [(if s.input = "" then s else s.execute_command ops).stack] }) ∧
      (c = '*' → s.execute_single_char ops c =
        App.binary_op ops ops.mul "*"
          { (if s.input = "" then s else s.execute_command ops) with
            history := (if s.input = "" then s else s.execute_command ops).history ++
              [(if s.input = "" then s else s.execute_command ops).stack] }) ∧
      (c = '/' → s.execute_single_char ops c =
        App.divide ops
          { (if s.input = "" then s else s.execute_command ops) with
            history := (if s.input = "" then s else s.execute_command ops).history ++
              [(if s.input = "" then s else s.execute_command ops).stack] }) ∧
      (c = '^' → s.execute_single_char ops c =
        App.binary_op ops ops.powf "^"
          { (if s.input = "" then s else s.execute_command ops) with
            history := (if s.input = "" then s else s.execute_command ops).history ++
              [(if s.input = "" then s else s.execute_command ops).stack] }) ∧
      (c = '%' → s.execute_single_char ops c =
        App.binary_op ops ops.frem "%"
          { (if s.input = "" then s else s.execute_command ops) with
            history := (if s.input = "" then s else s.execute_command ops).history ++
              [(if s.input = "" then s else s.execute_command ops).stack] }) ∧
      (c = '!' → s.execute_single_char ops c =
        App.factorial ops
          { (if s.input = "" then s else s.execute_command ops) with
            history := (if s.input = "" then s else s.execute_command ops).history ++
              [(if s.input = "" then s else s.execute_command ops).stack] })) := by
  refine ⟨execute_single_char_history ops c s, ?_, ?_, ?_⟩
  · intro hc
    unfold App.execute_single_char
    dsimp only
    split <;> simp_all
  · intro v hv
    have hne : s.input ≠ "" := by
      intro he
      rw [he, parse_empty] at hv
      exact Option.noConfusion hv
    rw [execute_single_char_history ops c s, if_neg hne, exec_push ops s v hv]
  · refine ⟨?_, ?_, ?_, ?_, ?_, ?_, ?_⟩ <;> (rintro rfl; rfl)

/-- Witness for C7: a non-operator character on a pending numeric token
leaves the flushed state with exactly the extra snapshot, the two
snapshots of the flush plus the unconditional one are both present, and
the plus key applies the addition operation after the snapshot. -/
theorem claim_c7_single_char_witness :
    (({ App.new with input := "5" } : App).execute_single_char idOps 'z').history =
      ([] ++ [[]]) ++ [[] ++ [F.fin 5]] ∧
    (({ App.new with input := "5" } : App).execute_single_char idOps 'z') =
      { (if ({ App.new with input := "5" } : App).input = "" then
          ({ App.new with input := "5" } : App)
        else ({ App.new with input := "5" } : App).execute_command idOps) with
        history :=
          (if ({ App.new with input := "5" } : App).input = "" then
            ({ App.new with input := "5" } : App)
          else ({ App.new with input := "5" } : App).execute_command idOps).history ++
            [(if ({ App.new with input := "5" } : App).input = "" then
               ({ App.new with input := "5" } : App)
             else ({ App.new with input := "5" } : App).execute_command idOps).stack] } ∧
    App.new.execute_single_char idOps '+' =
      App.binary_op idOps idOps.add "+"
        { (if App.new.input = "" then App.new else App.new.execute_command idOps) with
          history := (if App.new.input = "" then App.new
            else App.new.execute_command idOps).history ++
            [(if App.new.input = "" then App.new
              else App.new.execute_command idOps).stack] } :=
  ⟨(claim_c7_single_char idOps 'z' { App.new with input := "5" }).2.2.1 (F.fin 5) parse_five,
   (claim_c7_single_char idOps 'z' { App.new with input := "5" }).2.1 (by decide),
   (claim_c7_single_char idOps '+' App.new).2.2.2.1 rfl⟩

end Rpn
